import Mathlib

/-!
Verification of the log-playback replay engine (`src/systems/log/LogPlayback.cc`
of gz-sim) against its natural-language specification.

The embedding mirrors the source file:
* `prependLogPath`, `replaceResourceURIs` — `LogPlaybackPrivate::PrependLogPath`
  (lines 376-424) and `LogPlaybackPrivate::ReplaceResourceURIs` (lines 299-373),
  with URIs as lists of characters and the filesystem as the list of existing
  paths;
* `emitterStep` — the particle-emitter change detector of
  `LogPlayback::Update` (lines 580-602);
* `start`, `configure` — `LogPlaybackPrivate::Start` (lines 201-296) and the
  single-instance guard of `LogPlayback::Configure` (lines 188-198);
* `update` — `LogPlayback::Update` (lines 467-620): the dt = 0 and
  not-started early returns, the backward-jump (rewind) setup, the message
  loop with the pending-removal bookkeeping, the final removal requests and
  the end-of-log pause emission.

External collaborators that are part of the wider repository but whose code is
not in this source file (the entity-component manager's `SetState` and entity
removal, the gz-transport log range query, `gz::common::joinPaths`) are
modelled from the spec; their doc comments say so explicitly.
-/

namespace LogPlayback

/-- A URI or filesystem path, as its list of characters. -/
abbrev Str := List Char

/-- The `file://` scheme prefix checked by `PrependLogPath` (line 385). -/
def fileUriScheme : Str := ['f', 'i', 'l', 'e', ':', '/', '/']

/-- Modelled from the spec: `gz::common::joinPaths` (external collaborator),
`candidate = join(logRootPath, strippedUri)` — the two parts joined by a
path separator. -/
def joinPaths (a b : Str) : Str := a ++ '/' :: b

/-- The mutable state of the URI rewriter: the backward-compatibility flag
`doReplaceResourceURIs` (line 114) and the log root directory `logPath`
(line 98). -/
structure RewriteState where
  doReplaceResourceURIs : Bool
  logPath : Str
deriving DecidableEq

/-- The stripped URI of `PrependLogPath` (lines 394-402): the URI itself when
it starts with a path separator, otherwise the URI with the `file://` scheme
removed. -/
def strippedOf (uri : Str) : Str :=
  if uri.head? == some '/' then uri else uri.drop fileUriScheme.length

/-- The rewrite condition of `PrependLogPath` (lines 389-392): the URI starts
with `file://` and the rest does not already start with the log path, or the
URI starts with a path separator. -/
def rewriteCond (st : RewriteState) (uri : Str) : Bool :=
  (fileUriScheme.isPrefixOf uri
      && ! st.logPath.isPrefixOf (uri.drop fileUriScheme.length))
    || (uri.head? == some '/')

/-- `LogPlaybackPrivate::PrependLogPath` (lines 376-424). `fs` is the set of
paths existing on the filesystem (`common::exists`, line 410). Returns the
rewritten URI and the new rewriter state. -/
def prependLogPath (fs : List Str) (st : RewriteState) (uri : Str) :
    Str × RewriteState :=
  if st.doReplaceResourceURIs = false then (uri, st)
  else if rewriteCond st uri then
    let pathPrepended := joinPaths st.logPath (strippedOf uri)
    if pathPrepended ∈ fs then (fileUriScheme ++ pathPrepended, st)
    else (uri, { st with doReplaceResourceURIs := false })
  else (uri, st)

/-- The geometry loop of `ReplaceResourceURIs` (lines 335-355): each geometry
component is `some uri` for a mesh geometry and `none` otherwise; empty mesh
URIs are skipped, the rest go through `PrependLogPath`, threading the rewriter
state. -/
def rewriteGeoms (fs : List Str) :
    RewriteState → List (Option Str) → List (Option Str) × RewriteState
  | st, [] => ([], st)
  | st, none :: gs =>
    let rest := rewriteGeoms fs st gs
    (none :: rest.1, rest.2)
  | st, some u :: gs =>
    if u = [] then
      let rest := rewriteGeoms fs st gs
      (some u :: rest.1, rest.2)
    else
      let r := prependLogPath fs st u
      let rest := rewriteGeoms fs r.2 gs
      (some r.1 :: rest.1, rest.2)

/-- The material loop of `ReplaceResourceURIs` (lines 358-372): empty script
URIs are skipped, the rest go through `PrependLogPath`, threading the rewriter
state. -/
def rewriteMats (fs : List Str) :
    RewriteState → List Str → List Str × RewriteState
  | st, [] => ([], st)
  | st, u :: us =>
    if u = [] then
      let rest := rewriteMats fs st us
      (u :: rest.1, rest.2)
    else
      let r := prependLogPath fs st u
      let rest := rewriteMats fs r.2 us
      (r.1 :: rest.1, rest.2)

/-- `LogPlaybackPrivate::ReplaceResourceURIs` (lines 299-373): early return
when the backward-compatibility flag is off (lines 303-306), otherwise the
geometry loop followed by the material loop. -/
def replaceResourceURIs (fs : List Str) (st : RewriteState)
    (geos : List (Option Str)) (mats : List Str) :
    List (Option Str) × List Str × RewriteState :=
  if st.doReplaceResourceURIs = false then (geos, mats, st)
  else
    let g := rewriteGeoms fs st geos
    let m := rewriteMats fs g.2 mats
    (g.1, m.1, m.2)

/-- One entity entry of a `SerializedState` / `SerializedStateMap` message:
its id, its `remove` flag, and its component changes, each a pair of a
component-type id and an opaque payload. -/
structure EntityMsg where
  id : Nat
  remove : Bool
  comps : List (Nat × Nat)
deriving DecidableEq

/-- A typed log message: a full-state diff, a map-state diff, the SDF string
message (ignored, line 566-569) or an unsupported type (warned and skipped,
lines 570-574). -/
inductive Msg where
  | state (ents : List EntityMsg)
  | stateMap (ents : List EntityMsg)
  | stringMsg
  | unsupported (typeTag : Nat)
deriving DecidableEq

/-- A time-stamped record of the log. -/
structure LogRecord where
  time : Int
  msg : Msg
deriving DecidableEq

/-- The per-entity component row: component-type id to payload. -/
abbrev CompMap := Nat → Option Nat

/-- The entity-component world, as seen by the replay engine: which entity
ids are live and each entity's component row. -/
@[ext]
structure World where
  live : Nat → Bool
  comp : Nat → Nat → Option Nat

/-- Write a batch of component changes into a row, one
`(componentType, value)` pair at a time, later pairs overriding earlier
ones. -/
def insertComps (row : CompMap) (cs : List (Nat × Nat)) : CompMap :=
  cs.foldl (fun m kv => Function.update m kv.1 (some kv.2)) row

/-- Modelled from the spec: the effect of one entity entry of
`EntityComponentManager::SetState` (the ECM is an external collaborator of
this file). Per DiffApplier in the spec: a removal record deletes the entity
and its components; any other record creates the entity if absent and
replaces or creates the changed components. -/
def applyEntityMsg (w : World) (em : EntityMsg) : World :=
  if em.remove then
    { live := Function.update w.live em.id false
      comp := Function.update w.comp em.id (fun _ => none) }
  else
    { live := Function.update w.live em.id true
      comp := Function.update w.comp em.id (insertComps (w.comp em.id) em.comps) }

/-- Modelled from the spec: `EntityComponentManager::SetState` applied by
`LogPlaybackPrivate::Parse` (lines 140-151) — the entity entries of one
message, applied in order. -/
def setState (w : World) (ents : List EntityMsg) : World :=
  ents.foldl applyEntityMsg w

/-- The pending-removal bookkeeping of `LogPlayback::Update` (lines 521-535
and 547-562): for each entity entry of a state message, a removal entry
inserts the entity into the set, any other entry erases it. -/
def updatePending (pending : Nat → Bool) (ents : List EntityMsg) : Nat → Bool :=
  ents.foldl
    (fun p em =>
      if em.remove then Function.update p em.id true
      else Function.update p em.id false)
    pending

/-- Modelled from the spec: the log range query
`QueryMessages(AllTopics({startTime, endTime}))` (lines 505-506, gz-transport
is an external collaborator) over the half-open time window
`[startTime, endTime)` of the spec's TimeWindow. -/
def queryMessages (recs : List LogRecord) (s e : Int) : List LogRecord :=
  recs.filter (fun r => decide (s ≤ r.time) && decide (r.time < e))

/-- One iteration of the message loop of `LogPlayback::Update`
(lines 509-577): a state or map-state message updates the pending-removal set
(only when rewinding) and is parsed into the world; a string message or an
unsupported message does nothing to either. -/
def processRecord (seekRewind : Bool) (acc : World × (Nat → Bool))
    (r : LogRecord) : World × (Nat → Bool) :=
  match r.msg with
  | Msg.state ents =>
    (setState acc.1 ents, if seekRewind then updatePending acc.2 ents else acc.2)
  | Msg.stateMap ents =>
    (setState acc.1 ents, if seekRewind then updatePending acc.2 ents else acc.2)
  | Msg.stringMsg => acc
  | Msg.unsupported _ => acc

/-- Modelled from the spec: the effect of the final removal loop of
`LogPlayback::Update` (lines 604-609) — `RequestRemoveEntity` for every
entity still in the pending set deletes that entity and its components. -/
def removePending (w : World) (pending : Nat → Bool) : World :=
  { live := fun e => w.live e && ! pending e
    comp := fun e => if pending e then fun _ => none else w.comp e }

/-- The session-scoped playback state used by `Update`: the `instStarted`
flag (line 104), the opened log's records and end time, the particle-emitter
previous-value cache `prevParticleEmitterCmds` (line 117) and the
`printedEnd` flag (line 107, declared but never consulted by `Update`). -/
structure PlaybackState where
  instStarted : Bool
  logRecords : List LogRecord
  logEndTime : Int
  prevParticleEmitterCmds : Nat → Option Bool
  printedEnd : Bool

/-- The simulation times handed to `Update`: current time `simTime` and the
delta `dt` (previous time is `simTime - dt`). -/
structure UpdateInfo where
  simTime : Int
  dt : Int
deriving DecidableEq

/-- The observable outcome of one `Update` call: the world after diff
application and the removal loop, the playback state, the set of entity ids
passed to `RequestRemoveEntity` (lines 606-609), and whether the pause event
was emitted (lines 612-619). -/
structure StepResult where
  world : World
  pstate : PlaybackState
  removalRequests : Nat → Bool
  pauseEmitted : Bool

/-- `LogPlayback::Update` (lines 467-620), excluding the particle-emitter
pass (lines 580-602), which touches only the emitter cache and component
change flags and is modelled separately by `emitterStep`, and the per-record
URI rewriting call (line 575), which touches only the URI payloads of
geometry and material components and is modelled separately by
`replaceResourceURIs`; neither alters entity liveness, the pending-removal
set, or the pause emission. Early return when `dt = 0` (line 470) or the
instance is not started (line 473); on a backward jump (`dt < 0`,
lines 484-503) the rewind flag is set, the window start is reset to zero and
the pending-removal set starts as all live entities; otherwise the window is
`[simTime - dt, simTime)`, no rewind, and the pending set starts empty. The
queried records are processed in order, every entity still pending is
requested for removal, and pause is emitted when `simTime` has reached the
log end time. -/
def update (info : UpdateInfo) (ps : PlaybackState) (w : World) : StepResult :=
  if info.dt = 0 then ⟨w, ps, fun _ => false, false⟩
  else if ps.instStarted = false then ⟨w, ps, fun _ => false, false⟩
  else
    let startTime : Int := info.simTime - info.dt
    let endTime : Int := info.simTime
    let setup : Bool × Int × (Nat → Bool) :=
      if info.dt < 0 then (true, 0, w.live) else (false, startTime, fun _ => false)
    let batch := queryMessages ps.logRecords setup.2.1 endTime
    let acc := batch.foldl (processRecord setup.1) (w, setup.2.2)
    ⟨removePending acc.1 acc.2, ps, acc.2, decide (ps.logEndTime ≤ endTime)⟩

/-- The entity entries carried by one message (empty for non-state
messages). -/
def recEnts : Msg → List EntityMsg
  | Msg.state ents => ents
  | Msg.stateMap ents => ents
  | Msg.stringMsg => []
  | Msg.unsupported _ => []

/-- All entity entries of a record list, in log order. -/
def allEnts : List LogRecord → List EntityMsg
  | [] => []
  | r :: rs => recEnts r.msg ++ allEnts rs

/-- The world-state effect of one message: state and map-state messages are
parsed (`SetState`), others are skipped. -/
def applyRecordMsg (w : World) (m : Msg) : World :=
  match m with
  | Msg.state ents => setState w ents
  | Msg.stateMap ents => setState w ents
  | Msg.stringMsg => w
  | Msg.unsupported _ => w

/-- The world after replaying a record list in order — the world component of
the `Update` message loop. -/
def replayRecords (w : World) (recs : List LogRecord) : World :=
  recs.foldl (fun w r => applyRecordMsg w r.msg) w

/-- The last entry mentioning entity `e` in a list of entity entries, if
any. -/
def lastMention (e : Nat) : List EntityMsg → Option EntityMsg
  | [] => none
  | em :: L =>
    match lastMention e L with
    | some x => some x
    | none => if em.id = e then some em else none

/-- The effect of one entity entry on the component row of the entity it
mentions: a removal clears the row, any other entry writes its component
changes. -/
def applyRow (row : CompMap) (em : EntityMsg) : CompMap :=
  if em.remove then (fun _ => none) else insertComps row em.comps

/-- A row folded through a list of entity entries. -/
def rowFold (row : CompMap) (M : List EntityMsg) : CompMap :=
  M.foldl applyRow row

/-- One step of the particle-emitter change detector of `LogPlayback::Update`
(lines 584-599): `prev` is the `prevParticleEmitterCmds` cache, `entity` the
entity holding a `ParticleEmitterCmd` component and `emitting` its current
scalar payload. Returns the new cache and whether `SetChanged` was called
with a one-time change. -/
def emitterStep (prev : Nat → Option Bool) (entity : Nat) (emitting : Bool) :
    (Nat → Option Bool) × Bool :=
  match prev entity with
  | none => (Function.update prev entity (some emitting), false)
  | some pOld =>
    if pOld != emitting then (Function.update prev entity (some emitting), true)
    else (prev, false)

/-- The change flags produced by observing one entity's payload sequence
across successive `Update` calls, threading the cache. -/
def emitterRun (prev : Nat → Option Bool) (entity : Nat) : List Bool → List Bool
  | [] => []
  | v :: vs =>
    (emitterStep prev entity v).2 :: emitterRun (emitterStep prev entity v).1 entity vs

/-- The fixed relative name of the state log file, `state.tlog`
(line 217). -/
def stateTlogName : Str := ['s', 't', 'a', 't', 'e', '.', 't', 'l', 'o', 'g']

/-- The per-instance state relevant to `Start`: the configured log root path
(line 98), the opened log handle — modelled by the path it was opened on
(line 92) — and the `instStarted` flag (line 104). -/
structure InstState where
  logPath : Str
  log : Option Str
  instStarted : Bool
deriving DecidableEq

/-- The outcome of a `Start` or `Configure` call: the returned success flag,
the process-wide `started` flag (line 95) afterwards, the instance state and
the world. -/
structure StartResult where
  ok : Bool
  started : Bool
  inst : InstState
  world : World

/-- The seed-state scan of `Start` (lines 244-261): the first state or
map-state message is parsed into the world, messages before it are skipped,
and the scan stops there. -/
def applyFirstState (w : World) : List Msg → World
  | [] => w
  | Msg.state ents :: _ => setState w ents
  | Msg.stateMap ents :: _ => setState w ents
  | Msg.stringMsg :: rest => applyFirstState w rest
  | Msg.unsupported _ :: rest => applyFirstState w rest

/-- `LogPlaybackPrivate::Start` (lines 201-296): refuse to start a second
session while one is active (lines 203-208, a no-op returning true); fail on
an empty log path (lines 210-214) or a missing `state.tlog` (lines 217-224);
otherwise open the log handle, seed the world from the first state message,
and — when the world entity exists (lines 272-277) — mark the instance and
the process-wide flag started. The log-statistics component write
(lines 263-289) and the startup URI pass (line 291) are elided: they only
write a statistics payload and rewrite URI payloads. `fs` is the set of
existing paths, `logMsgs` the opened log's messages, `worldEntity` the result
of the world-entity lookup. -/
def start (fs : List Str) (logMsgs : List Msg) (worldEntity : Option Nat)
    (started : Bool) (inst : InstState) (w : World) : StartResult :=
  if started then ⟨true, started, inst, w⟩
  else if inst.logPath = [] then ⟨false, started, inst, w⟩
  else
    let dbPath := joinPaths inst.logPath stateTlogName
    if dbPath ∈ fs then
      let inst2 : InstState := { inst with log := some dbPath }
      let w2 := applyFirstState w logMsgs
      match worldEntity with
      | none => ⟨false, started, inst2, w2⟩
      | some _ => ⟨true, true, { inst2 with instStarted := true }, w2⟩
    else ⟨false, started, inst, w⟩

/-- The single-instance guard of `LogPlayback::Configure` (lines 188-198):
call `Start` only when no playback instance has been started, otherwise warn
and leave everything unchanged. Path configuration and archive extraction
(lines 158-186) are external per the spec and elided. -/
def configure (fs : List Str) (logMsgs : List Msg) (worldEntity : Option Nat)
    (started : Bool) (inst : InstState) (w : World) : StartResult :=
  if started = false then start fs logMsgs worldEntity started inst w
  else ⟨true, started, inst, w⟩

/-- A world with no live entities and no components, used as a concrete test
world. -/
def wEmpty : World := { live := fun _ => false, comp := fun _ _ => none }

/-- A concrete playback state for tests: instance started, two records —
entity 5 removed at time 1 and re-created (with component 3 set to 7) at
time 2 — and log end time 10. -/
def psTest : PlaybackState :=
  { instStarted := true
    logRecords :=
      [ { time := 1, msg := Msg.state [{ id := 5, remove := true, comps := [] }] }
      , { time := 2, msg := Msg.state [{ id := 5, remove := false, comps := [(3, 7)] }] } ]
    logEndTime := 10
    prevParticleEmitterCmds := fun _ => none
    printedEnd := false }

/-- A concrete log root directory path. -/
def logRoot : Str := ['/', 'l', 'o', 'g']

/-- A concrete filesystem holding exactly the candidate path for the URI
`/a` under `logRoot`. -/
def fsTest : List Str := [joinPaths logRoot ['/', 'a']]

/-- A concrete rewriter state over `logRoot` with rewriting enabled. -/
def stTest : RewriteState := { doReplaceResourceURIs := true, logPath := logRoot }

/-- A concrete not-yet-started instance state over `logRoot`. -/
def instTest : InstState := { logPath := logRoot, log := none, instStarted := false }

theorem insertComps_cons (row : CompMap) (kv : Nat × Nat) (cs : List (Nat × Nat)) :
    insertComps row (kv :: cs) = insertComps (Function.update row kv.1 (some kv.2)) cs := rfl

theorem insertComps_append (row : CompMap) (a b : List (Nat × Nat)) :
    insertComps row (a ++ b) = insertComps (insertComps row a) b :=
  List.foldl_append ..

theorem insertComps_untouched (cs : List (Nat × Nat)) (row : CompMap) (k : Nat)
    (h : ∀ p ∈ cs, p.1 ≠ k) : insertComps row cs k = row k := by
  induction cs generalizing row with
  | nil => rfl
  | cons kv cs ih =>
    have hk : kv.1 ≠ k := h kv (List.mem_cons_self kv cs)
    have h2 : ∀ p ∈ cs, p.1 ≠ k := fun p hp => h p (List.mem_cons_of_mem kv hp)
    rw [insertComps_cons, ih _ h2, Function.update_apply,
      if_neg (fun hkk => hk hkk.symm)]

theorem insertComps_congr (cs : List (Nat × Nat)) (r1 r2 : CompMap)
    (h : ∀ k, (∀ p ∈ cs, p.1 ≠ k) → r1 k = r2 k) :
    insertComps r1 cs = insertComps r2 cs := by
  induction cs generalizing r1 r2 with
  | nil =>
    funext k
    exact h k (fun p hp => absurd hp (List.not_mem_nil p))
  | cons kv cs ih =>
    rw [insertComps_cons, insertComps_cons]
    apply ih
    intro k hk
    by_cases hkk : k = kv.1
    · simp [Function.update_apply, hkk]
    · rw [Function.update_apply, Function.update_apply, if_neg hkk, if_neg hkk]
      refine h k ?_
      intro p hp
      rcases List.mem_cons.mp hp with h1 | h2
      · subst h1; exact fun hpk => hkk hpk.symm
      · exact hk p h2

theorem insertComps_idem (row : CompMap) (cs : List (Nat × Nat)) :
    insertComps (insertComps row cs) cs = insertComps row cs :=
  insertComps_congr cs (insertComps row cs) row
    (fun k hk => insertComps_untouched cs row k hk)

theorem rowFold_cons (row : CompMap) (em : EntityMsg) (M : List EntityMsg) :
    rowFold row (em :: M) = rowFold (applyRow row em) M := rfl

theorem rowFold_shape (M : List EntityMsg) :
    M = []
    ∨ (∃ cs, ∀ row : CompMap, rowFold row M = insertComps row cs)
    ∨ (∃ r : CompMap, ∀ row : CompMap, rowFold row M = r) := by
  induction M with
  | nil => exact Or.inl rfl
  | cons em M ih =>
    right
    cases hr : em.remove with
    | true =>
      right
      refine ⟨rowFold (fun _ => none) M, fun row => ?_⟩
      rw [rowFold_cons]
      simp [applyRow, hr]
    | false =>
      rcases ih with hnil | ⟨cs, hcs⟩ | ⟨r, hr2⟩
      · left
        refine ⟨em.comps, fun row => ?_⟩
        subst hnil
        simp [rowFold, applyRow, hr]
      · left
        refine ⟨em.comps ++ cs, fun row => ?_⟩
        rw [rowFold_cons]
        simp only [applyRow, hr, Bool.false_eq_true, if_false]
        rw [hcs, insertComps_append]
      · right
        refine ⟨r, fun row => ?_⟩
        rw [rowFold_cons]
        simp only [applyRow, hr, Bool.false_eq_true, if_false]
        exact hr2 _

theorem rowFold_idem (row : CompMap) (M : List EntityMsg) :
    rowFold (rowFold row M) M = rowFold row M := by
  rcases rowFold_shape M with hnil | ⟨cs, hcs⟩ | ⟨r, hr⟩
  · subst hnil; rfl
  · rw [hcs, hcs]; exact insertComps_idem row cs
  · rw [hr, hr]

theorem update_eq_if {α : Type} (f : Nat → α) (i : Nat) (v : α) (e : Nat) :
    Function.update f i v e = if i = e then v else f e := by
  rw [Function.update_apply]
  by_cases h : e = i
  · rw [if_pos h, if_pos h.symm]
  · rw [if_neg h, if_neg (fun hh => h hh.symm)]

theorem applyEntityMsg_live (w : World) (em : EntityMsg) (e : Nat) :
    (applyEntityMsg w em).live e = if em.id = e then ! em.remove else w.live e := by
  cases hr : em.remove <;> simp [applyEntityMsg, hr, update_eq_if]

theorem applyEntityMsg_comp (w : World) (em : EntityMsg) (e : Nat) :
    (applyEntityMsg w em).comp e
      = if em.id = e then applyRow (w.comp e) em else w.comp e := by
  cases hr : em.remove
  · by_cases hid : em.id = e
    · subst hid; simp [applyEntityMsg, hr, applyRow, update_eq_if]
    · simp [applyEntityMsg, hr, applyRow, update_eq_if, hid]
  · simp [applyEntityMsg, hr, applyRow, update_eq_if]

theorem setState_cons (w : World) (em : EntityMsg) (L : List EntityMsg) :
    setState w (em :: L) = setState (applyEntityMsg w em) L := rfl

theorem setState_append (w : World) (a b : List EntityMsg) :
    setState w (a ++ b) = setState (setState w a) b :=
  List.foldl_append ..

theorem setState_live (L : List EntityMsg) (w : World) (e : Nat) :
    (setState w L).live e
      = (lastMention e L).elim (w.live e) (fun em => ! em.remove) := by
  induction L generalizing w with
  | nil => rfl
  | cons em L ih =>
    rw [setState_cons, ih]
    cases hL : lastMention e L with
    | some x => simp [lastMention, hL]
    | none =>
      simp only [lastMention, hL, Option.elim]
      rw [applyEntityMsg_live]
      by_cases hid : em.id = e <;> simp [hid]

theorem setState_comp (L : List EntityMsg) (w : World) (e : Nat) :
    (setState w L).comp e
      = rowFold (w.comp e) (L.filter (fun x => x.id == e)) := by
  induction L generalizing w with
  | nil => rfl
  | cons em L ih =>
    rw [setState_cons, ih, applyEntityMsg_comp]
    by_cases hid : em.id = e
    · rw [if_pos hid]
      have hf : (em :: L).filter (fun x => x.id == e)
          = em :: L.filter (fun x => x.id == e) := by
        simp [List.filter_cons, hid]
      rw [hf, rowFold_cons]
    · rw [if_neg hid]
      have hf : (em :: L).filter (fun x => x.id == e)
          = L.filter (fun x => x.id == e) := by
        simp [List.filter_cons, hid]
      rw [hf]

theorem setState_idem (L : List EntityMsg) (w : World) :
    setState (setState w L) L = setState w L := by
  apply World.ext
  · funext e
    rw [setState_live, setState_live]
    cases hL : lastMention e L <;> simp
  · funext e
    rw [setState_comp, setState_comp]
    exact rowFold_idem _ _

theorem updatePending_cons (p : Nat → Bool) (em : EntityMsg) (L : List EntityMsg) :
    updatePending p (em :: L) = updatePending (Function.update p em.id em.remove) L := by
  cases hr : em.remove <;> simp [updatePending, hr]

theorem updatePending_append (p : Nat → Bool) (a b : List EntityMsg) :
    updatePending p (a ++ b) = updatePending (updatePending p a) b :=
  List.foldl_append ..

theorem updatePending_lastMention (L : List EntityMsg) (p : Nat → Bool) (e : Nat) :
    updatePending p L e = (lastMention e L).elim (p e) (fun em => em.remove) := by
  induction L generalizing p with
  | nil => rfl
  | cons em L ih =>
    rw [updatePending_cons, ih]
    cases hL : lastMention e L with
    | some x => simp [lastMention, hL]
    | none =>
      simp only [lastMention, hL, Option.elim]
      rw [update_eq_if]
      by_cases hid : em.id = e <;> simp [hid]

theorem applyRecordMsg_eq_setState (w : World) (m : Msg) :
    applyRecordMsg w m = setState w (recEnts m) := by
  cases m <;> rfl

theorem replayRecords_cons (w : World) (r : LogRecord) (recs : List LogRecord) :
    replayRecords w (r :: recs) = replayRecords (applyRecordMsg w r.msg) recs := rfl

theorem replayRecords_eq_setState (recs : List LogRecord) (w : World) :
    replayRecords w recs = setState w (allEnts recs) := by
  induction recs generalizing w with
  | nil => rfl
  | cons r recs ih =>
    rw [replayRecords_cons, ih, allEnts, setState_append, applyRecordMsg_eq_setState]

theorem foldl_processRecord_world (sr : Bool) (recs : List LogRecord)
    (w : World) (p : Nat → Bool) :
    (recs.foldl (processRecord sr) (w, p)).1 = replayRecords w recs := by
  induction recs generalizing w p with
  | nil => rfl
  | cons r recs ih =>
    rw [List.foldl_cons, replayRecords_cons]
    cases hm : r.msg <;> simp only [processRecord, hm, applyRecordMsg] <;> exact ih ..

theorem foldl_processRecord_pending (recs : List LogRecord)
    (w : World) (p : Nat → Bool) :
    (recs.foldl (processRecord true) (w, p)).2 = updatePending p (allEnts recs) := by
  induction recs generalizing w p with
  | nil => rfl
  | cons r recs ih =>
    rw [List.foldl_cons, allEnts, updatePending_append]
    cases hm : r.msg <;> simp only [processRecord, hm, recEnts, if_true] <;> exact ih ..

theorem foldl_processRecord_pending_forward (recs : List LogRecord)
    (w : World) (p : Nat → Bool) :
    (recs.foldl (processRecord false) (w, p)).2 = p := by
  induction recs generalizing w p with
  | nil => rfl
  | cons r recs ih =>
    rw [List.foldl_cons]
    cases hm : r.msg <;> simp only [processRecord, hm] <;> exact ih ..

theorem isPrefixOf_append_self (l t : Str) : l.isPrefixOf (l ++ t) = true := by
  induction l with
  | nil => simp [List.isPrefixOf]
  | cons a l ih => simp [List.isPrefixOf, ih]

theorem scheme_drop (l : Str) :
    (fileUriScheme ++ l).drop fileUriScheme.length = l := rfl

theorem scheme_head (l : Str) : (fileUriScheme ++ l).head? = some 'f' := rfl

theorem rewriteCond_rewritten (st : RewriteState) (p : Str) :
    rewriteCond st (fileUriScheme ++ joinPaths st.logPath p) = false := by
  have h1 : fileUriScheme.isPrefixOf (fileUriScheme ++ joinPaths st.logPath p) = true :=
    isPrefixOf_append_self _ _
  have h2 : (fileUriScheme ++ joinPaths st.logPath p).drop fileUriScheme.length
      = joinPaths st.logPath p := scheme_drop _
  have h3 : st.logPath.isPrefixOf (joinPaths st.logPath p) = true :=
    isPrefixOf_append_self _ _
  have h4 : (fileUriScheme ++ joinPaths st.logPath p).head? = some 'f' := scheme_head _
  simp [rewriteCond, h1, h2, h3, h4]

/-- Claim C6: the resource URI rewriter is idempotent — running
`PrependLogPath` a second time, on the URI and rewriter state produced by a
first run over unchanged filesystem contents, yields the same URI and state:
a URI already rewritten against the log root path is never prefixed a second
time. -/
theorem rewrite_idempotent (fs : List Str) (st : RewriteState) (uri : Str) :
    prependLogPath fs (prependLogPath fs st uri).2 (prependLogPath fs st uri).1
      = prependLogPath fs st uri := by
  by_cases hd : st.doReplaceResourceURIs = false
  · simp [prependLogPath, hd]
  · by_cases hc : rewriteCond st uri = true
    · by_cases hm : joinPaths st.logPath (strippedOf uri) ∈ fs
      · have h1 : prependLogPath fs st uri
            = (fileUriScheme ++ joinPaths st.logPath (strippedOf uri), st) := by
          simp [prependLogPath, hd, hc, hm]
        rw [h1]
        simp [prependLogPath, hd, rewriteCond_rewritten]
      · have h1 : prependLogPath fs st uri
            = (uri, { st with doReplaceResourceURIs := false }) := by
          simp [prependLogPath, hd, hc, hm]
        rw [h1]
        simp [prependLogPath]
    · have h1 : prependLogPath fs st uri = (uri, st) := by
        simp [prependLogPath, hd, hc]
      rw [h1]
      exact h1

/-- Claim C4: if the joined candidate path of a URI does not exist on the
filesystem, that `PrependLogPath` call returns the URI unmodified and clears
the `doReplaceResourceURIs` flag; with the flag cleared, every later
`PrependLogPath` call, every later material and geometry loop, and every
later `ReplaceResourceURIs` call return every URI unmodified — rewriting is
disabled for the remainder of the session. -/
theorem legacy_fallback_disables_rewrites :
    (∀ (fs : List Str) (st : RewriteState) (uri : Str),
        st.doReplaceResourceURIs = false → prependLogPath fs st uri = (uri, st))
    ∧ (∀ (fs : List Str) (st : RewriteState) (uri : Str),
        st.doReplaceResourceURIs = true → rewriteCond st uri = true →
        joinPaths st.logPath (strippedOf uri) ∉ fs →
        prependLogPath fs st uri = (uri, { st with doReplaceResourceURIs := false }))
    ∧ (∀ (fs : List Str) (st : RewriteState) (mats : List Str),
        st.doReplaceResourceURIs = false → rewriteMats fs st mats = (mats, st))
    ∧ (∀ (fs : List Str) (st : RewriteState) (geos : List (Option Str)),
        st.doReplaceResourceURIs = false → rewriteGeoms fs st geos = (geos, st))
    ∧ (∀ (fs : List Str) (st : RewriteState) (geos : List (Option Str)) (mats : List Str),
        st.doReplaceResourceURIs = false →
        replaceResourceURIs fs st geos mats = (geos, mats, st)) := by
  have hid : ∀ (fs : List Str) (st : RewriteState) (uri : Str),
      st.doReplaceResourceURIs = false → prependLogPath fs st uri = (uri, st) := by
    intro fs st uri h
    simp [prependLogPath, h]
  refine ⟨hid, ?_, ?_, ?_, ?_⟩
  · intro fs st uri h hc hm
    simp [prependLogPath, h, hc, hm]
  · intro fs st mats h
    induction mats with
    | nil => rfl
    | cons u us ih =>
      by_cases hu : u = []
      · simp [rewriteMats, hu, ih]
      · simp [rewriteMats, hu, hid fs st u h, ih]
  · intro fs st geos h
    induction geos with
    | nil => rfl
    | cons g gs ih =>
      cases g with
      | none => simp [rewriteGeoms, ih]
      | some u =>
        by_cases hu : u = []
        · simp [rewriteGeoms, hu, ih]
        · simp [rewriteGeoms, hu, hid fs st u h, ih]
  · intro fs st geos mats h
    simp [replaceResourceURIs, h]

/-- Witness for claim C4 at a concrete input: for the bare URI `/b` over log
root `/log` and a filesystem not containing the candidate `/log//b`, the
call returns the URI unmodified and clears the rewrite flag. -/
theorem legacy_fallback_disables_rewrites_witness :
    prependLogPath fsTest stTest ['/', 'b']
      = (['/', 'b'], { stTest with doReplaceResourceURIs := false }) :=
  legacy_fallback_disables_rewrites.2.1 fsTest stTest ['/', 'b']
    rfl (by decide) (by decide)

/-- Counterexample to claim C8 as stated: for the bare absolute URI `/a`
(which does not carry the `file://` scheme) whose joined candidate exists on
the filesystem, the rewritten URI nevertheless carries the `file://`
scheme — the scheme is not re-added "if and only if the original URI had
it". -/
theorem scheme_always_added_counterexample :
    fileUriScheme.isPrefixOf ['/', 'a'] = false
    ∧ (prependLogPath fsTest stTest ['/', 'a']).1
        = fileUriScheme ++ joinPaths logRoot ['/', 'a']
    ∧ fileUriScheme.isPrefixOf (prependLogPath fsTest stTest ['/', 'a']).1 = true :=
  ⟨by decide, by decide, by decide⟩

/-- Claim C8 (amended): when the joined candidate path exists on the
filesystem, the rewriter replaces the component's URI with the candidate
prefixed by the `file://` scheme — the scheme is always added to the
rewritten URI, whether or not the original URI had it — and leaves the
rewriter state unchanged. -/
theorem rewrite_adds_scheme (fs : List Str) (st : RewriteState) (uri : Str)
    (hflag : st.doReplaceResourceURIs = true)
    (hcond : rewriteCond st uri = true)
    (hex : joinPaths st.logPath (strippedOf uri) ∈ fs) :
    prependLogPath fs st uri
      = (fileUriScheme ++ joinPaths st.logPath (strippedOf uri), st) := by
  simp [prependLogPath, hflag, hcond, hex]

/-- Witness for claim C8 (amended) at a concrete input: the bare URI `/a`
over log root `/log`, whose candidate `/log//a` exists. -/
theorem rewrite_adds_scheme_witness :
    prependLogPath fsTest stTest ['/', 'a']
      = (fileUriScheme ++ joinPaths stTest.logPath (strippedOf ['/', 'a']), stTest) :=
  rewrite_adds_scheme fsTest stTest ['/', 'a'] rfl (by decide) (by decide)

/-- Claim C5: the particle-emitter change detector is edge-triggered. On
first observation of an entity it records the value and emits no change; on
a cached value it flags a one-time change exactly when the value differs
from the cache, recording the new value; and across five `Step` calls the
value sequence `[true, true, false, false, true]` flags changed exactly at
indices 2 and 4. -/
theorem emitter_edge_triggered :
    (∀ (prev : Nat → Option Bool) (e : Nat) (v : Bool), prev e = none →
        emitterStep prev e v = (Function.update prev e (some v), false))
    ∧ (∀ (prev : Nat → Option Bool) (e : Nat) (v pOld : Bool), prev e = some pOld →
        (emitterStep prev e v).2 = (pOld != v)
        ∧ (emitterStep prev e v).1 e = some v)
    ∧ emitterRun (fun _ => none) 0 [true, true, false, false, true]
        = [false, false, true, false, true] := by
  refine ⟨?_, ?_, ?_⟩
  · intro prev e v h
    simp [emitterStep, h]
  · intro prev e v pOld h
    cases pOld <;> cases v <;>
      simp [emitterStep, h, Function.update_same]
  · decide

/-- Witness for claim C5 at concrete inputs: first observation of entity 3
emits nothing; a cached `false` observed as `true` flags a change. -/
theorem emitter_edge_triggered_witness :
    emitterStep (fun _ => none) 3 true
      = (Function.update (fun _ => none) 3 (some true), false)
    ∧ (emitterStep (fun _ : Nat => some false) 3 true).2 = (false != true) :=
  ⟨emitter_edge_triggered.1 (fun _ => none) 3 true rfl,
   (emitter_edge_triggered.2.1 (fun _ => some false) 3 true false rfl).1⟩

/-- Claim C7: at most one playback session is active process-wide — while
the process-wide started flag is set, `Start` is a no-op reported as
success: it leaves the flag set, the instance state (in particular its log
handle) untouched and the world untouched; `Configure` likewise leaves
everything unchanged. -/
theorem single_session_start_noop (fs : List Str) (logMsgs : List Msg)
    (worldEntity : Option Nat) (started : Bool) (inst : InstState) (w : World)
    (h : started = true) :
    start fs logMsgs worldEntity started inst w = ⟨true, started, inst, w⟩
    ∧ configure fs logMsgs worldEntity started inst w = ⟨true, started, inst, w⟩ := by
  subst h
  constructor
  · simp [start]
  · simp [configure]

/-- Witness for claim C7 at a concrete input: with the process-wide flag
set, a `Start` over an empty filesystem and empty log changes nothing. -/
theorem single_session_start_noop_witness :
    start [] [] none true instTest wEmpty = ⟨true, true, instTest, wEmpty⟩
    ∧ configure [] [] none true instTest wEmpty = ⟨true, true, instTest, wEmpty⟩ :=
  single_session_start_noop [] [] none true instTest wEmpty rfl

theorem update_rewind_eq (info : UpdateInfo) (ps : PlaybackState) (w : World)
    (h : info.dt < 0) (hs : ps.instStarted = true) :
    update info ps w =
      ⟨removePending
          ((queryMessages ps.logRecords 0 info.simTime).foldl
            (processRecord true) (w, w.live)).1
          ((queryMessages ps.logRecords 0 info.simTime).foldl
            (processRecord true) (w, w.live)).2,
        ps,
        ((queryMessages ps.logRecords 0 info.simTime).foldl
          (processRecord true) (w, w.live)).2,
        decide (ps.logEndTime ≤ info.simTime)⟩ := by
  have h0 : ¬ info.dt = 0 := by omega
  simp [update, h0, hs, h]

theorem update_forward_eq (info : UpdateInfo) (ps : PlaybackState) (w : World)
    (h0 : ¬ info.dt = 0) (hneg : ¬ info.dt < 0) (hs : ps.instStarted = true) :
    update info ps w =
      ⟨removePending
          ((queryMessages ps.logRecords (info.simTime - info.dt) info.simTime).foldl
            (processRecord false) (w, fun _ => false)).1
          ((queryMessages ps.logRecords (info.simTime - info.dt) info.simTime).foldl
            (processRecord false) (w, fun _ => false)).2,
        ps,
        ((queryMessages ps.logRecords (info.simTime - info.dt) info.simTime).foldl
          (processRecord false) (w, fun _ => false)).2,
        decide (ps.logEndTime ≤ info.simTime)⟩ := by
  simp [update, h0, hs, hneg]

/-- Claim C1: on a backward jump (`dt < 0`, so `simTime` is earlier than the
previous time) with the instance started, `Update` sets the rewind flag,
queries the log over the window `[0, simTime)` — the entire log from the
beginning — and initializes the pending-removal set to exactly the entity
ids currently live in the world, before replaying. -/
theorem rewind_step_full_replay (info : UpdateInfo) (ps : PlaybackState)
    (w : World) (h : info.dt < 0) (hs : ps.instStarted = true) :
    update info ps w =
      ⟨removePending
          ((queryMessages ps.logRecords 0 info.simTime).foldl
            (processRecord true) (w, w.live)).1
          ((queryMessages ps.logRecords 0 info.simTime).foldl
            (processRecord true) (w, w.live)).2,
        ps,
        ((queryMessages ps.logRecords 0 info.simTime).foldl
          (processRecord true) (w, w.live)).2,
        decide (ps.logEndTime ≤ info.simTime)⟩ :=
  update_rewind_eq info ps w h hs

/-- Witness for claim C1 at a concrete input: a backward step to time 2 over
the concrete test state. -/
theorem rewind_step_full_replay_witness :
    update ⟨2, -1⟩ psTest wEmpty =
      ⟨removePending
          ((queryMessages psTest.logRecords 0 2).foldl
            (processRecord true) (wEmpty, wEmpty.live)).1
          ((queryMessages psTest.logRecords 0 2).foldl
            (processRecord true) (wEmpty, wEmpty.live)).2,
        psTest,
        ((queryMessages psTest.logRecords 0 2).foldl
          (processRecord true) (wEmpty, wEmpty.live)).2,
        decide (psTest.logEndTime ≤ 2)⟩ :=
  rewind_step_full_replay ⟨2, -1⟩ psTest wEmpty (by decide) rfl

/-- Claim C2: during a rewind, the pending-removal set evolves per entity
entry in log order and its final membership is decided by the entity's last
mention — a removal entry (re-)inserts the entity, any other entry erases it
(first conjunct); every entity still in the set after the batch is removed
from the world (second conjunct); consequently an entity provisionally
marked for removal survives the rewind when a later diff in the same window
re-creates it (third conjunct). -/
theorem rewind_pending_reconciliation :
    (∀ (recs : List LogRecord) (w : World) (p : Nat → Bool) (e : Nat),
        (recs.foldl (processRecord true) (w, p)).2 e
          = (lastMention e (allEnts recs)).elim (p e) (fun em => em.remove))
    ∧ (∀ (w : World) (pending : Nat → Bool) (e : Nat),
        pending e = true → (removePending w pending).live e = false)
    ∧ (∀ (info : UpdateInfo) (ps : PlaybackState) (w : World) (e : Nat)
        (em : EntityMsg),
        info.dt < 0 → ps.instStarted = true →
        lastMention e (allEnts (queryMessages ps.logRecords 0 info.simTime))
          = some em →
        em.remove = false →
        (update info ps w).world.live e = true
        ∧ (update info ps w).removalRequests e = false) := by
  refine ⟨?_, ?_, ?_⟩
  · intro recs w p e
    rw [foldl_processRecord_pending, updatePending_lastMention]
  · intro w pending e h
    simp [removePending, h]
  · intro info ps w e em h hs hlast hrem
    rw [update_rewind_eq info ps w h hs]
    have hpend : ((queryMessages ps.logRecords 0 info.simTime).foldl
        (processRecord true) (w, w.live)).2 e = false := by
      rw [foldl_processRecord_pending, updatePending_lastMention, hlast]
      exact hrem
    have hlive : ((queryMessages ps.logRecords 0 info.simTime).foldl
        (processRecord true) (w, w.live)).1.live e = true := by
      rw [foldl_processRecord_world, replayRecords_eq_setState, setState_live, hlast]
      simp [hrem]
    constructor
    · show (removePending _ _).live e = true
      simp [removePending, hpend, hlive]
    · exact hpend

/-- Witness for claim C2 at a concrete input: a backward step to time 3 over
the concrete test state; entity 5, removed at time 1, is re-created at
time 2, so it is live after the rewind and never requested for removal. -/
theorem rewind_pending_reconciliation_witness :
    (update ⟨3, -4⟩ psTest wEmpty).world.live 5 = true
    ∧ (update ⟨3, -4⟩ psTest wEmpty).removalRequests 5 = false :=
  rewind_pending_reconciliation.2.2 ⟨3, -4⟩ psTest wEmpty 5
    ⟨5, false, [(3, 7)]⟩ (by decide) rfl (by decide) rfl

/-- Counterexample to claim C3 as stated: stepping to time 10 (the log end
time) emits the pause signal, and the next step, to time 11 — still at or
beyond end time, after the first crossing — emits the pause signal again:
the emission is not guarded to fire only once per crossing. -/
theorem pause_reemitted_counterexample :
    (update ⟨10, 1⟩ psTest wEmpty).pauseEmitted = true
    ∧ (update ⟨11, 1⟩ (update ⟨10, 1⟩ psTest wEmpty).pstate
        (update ⟨10, 1⟩ psTest wEmpty).world).pauseEmitted = true := by
  constructor <;> rfl

/-- Claim C3 (amended): with a started instance and nonzero `dt`, every
`Update` call emits the pause signal exactly when `simTime` has reached or
passed the log end time — so the signal recurs on every call at or beyond
end time rather than firing once per crossing — and the `printedEnd` flag is
neither consulted nor changed by `Update`. -/
theorem pause_emitted_every_tick_at_end (info : UpdateInfo) (ps : PlaybackState)
    (w : World) (h0 : ¬ info.dt = 0) (hs : ps.instStarted = true) :
    (update info ps w).pauseEmitted = decide (ps.logEndTime ≤ info.simTime)
    ∧ (update info ps w).pstate.printedEnd = ps.printedEnd := by
  by_cases hneg : info.dt < 0
  · rw [update_rewind_eq info ps w hneg hs]
    exact ⟨rfl, rfl⟩
  · rw [update_forward_eq info ps w h0 hneg hs]
    exact ⟨rfl, rfl⟩

/-- Witness for claim C3 (amended) at a concrete input: a step to time 11,
past the end time 10 of the concrete test state. -/
theorem pause_emitted_every_tick_at_end_witness :
    (update ⟨11, 1⟩ psTest wEmpty).pauseEmitted = decide (psTest.logEndTime ≤ 11)
    ∧ (update ⟨11, 1⟩ psTest wEmpty).pstate.printedEnd = psTest.printedEnd :=
  pause_emitted_every_tick_at_end ⟨11, 1⟩ psTest wEmpty (by decide) rfl

/-- Claim C9: forward replay is deterministic and idempotent — replaying the
same ordered record sequence a second time, from the state the first replay
produced, yields the identical final world state, so re-running the full log
reproduces the same final state. -/
theorem replay_idempotent (recs : List LogRecord) (w : World) :
    replayRecords (replayRecords w recs) recs = replayRecords w recs := by
  rw [replayRecords_eq_setState, replayRecords_eq_setState]
  exact setState_idem _ _

/-- Claim C10: on a forward step (`dt > 0`) with the instance started, the
final deletion loop requests no removals — the pending-removal set is
populated only on a backward jump — and every entity that is live before the
step and unmentioned by the window's diffs is still live after it. -/
theorem forward_step_no_removals (info : UpdateInfo) (ps : PlaybackState)
    (w : World) (h : 0 < info.dt) (hs : ps.instStarted = true) :
    (update info ps w).removalRequests = (fun _ => false)
    ∧ ∀ e : Nat,
        lastMention e (allEnts (queryMessages ps.logRecords
          (info.simTime - info.dt) info.simTime)) = none →
        (update info ps w).world.live e = w.live e := by
  have h0 : ¬ info.dt = 0 := by omega
  have hneg : ¬ info.dt < 0 := by omega
  rw [update_forward_eq info ps w h0 hneg hs]
  have hpend : ((queryMessages ps.logRecords (info.simTime - info.dt)
      info.simTime).foldl (processRecord false) (w, fun _ => false)).2
      = (fun _ => false) :=
    foldl_processRecord_pending_forward ..
  constructor
  · exact hpend
  · intro e he
    have hlive : ((queryMessages ps.logRecords (info.simTime - info.dt)
        info.simTime).foldl (processRecord false) (w, fun _ => false)).1.live e
        = w.live e := by
      rw [foldl_processRecord_world, replayRecords_eq_setState, setState_live, he]
      rfl
    show (removePending _ _).live e = w.live e
    simp [removePending, hpend, hlive]

/-- Witness for claim C10 at a concrete input: a forward step over the
window `[3, 4)` of the concrete test state, whose records all lie outside
the window, so entity 9 keeps its liveness. -/
theorem forward_step_no_removals_witness :
    (update ⟨4, 1⟩ psTest wEmpty).removalRequests = (fun _ => false)
    ∧ (update ⟨4, 1⟩ psTest wEmpty).world.live 9 = wEmpty.live 9 :=
  ⟨(forward_step_no_removals ⟨4, 1⟩ psTest wEmpty (by decide) rfl).1,
   (forward_step_no_removals ⟨4, 1⟩ psTest wEmpty (by decide) rfl).2 9 (by decide)⟩

end LogPlayback
